import Mathlib

/-
Verification of the KalmanFilter class of src/KalmanFilterExample.py.

Two embeddings of the same source code are developed.

The first ("Np" level) models numpy values dynamically: a value is either a
python scalar or a 2-D array given by its list of rows, and the operations
np.dot, +, -, .T, np.eye, np.zeros and np.linalg.inv are modelled with
numpy's dynamic shape rules (2-D broadcasting for elementwise + and -, shape
alignment checks for np.dot, LinAlgError on non-square or singular input for
np.linalg.inv).  Exceptions are modelled with Except; an exception raised by
predict or update carries the instance state as it stands at the moment the
exception is raised, because a python exception leaves the partially mutated
object behind.  This level decides the claims about the constructor, the
error behaviour, atomicity and shape defects.

The second ("typed" level) embeds the same predict/update lines over
Mathlib matrices of statically matching dimensions (exact rational
arithmetic), and decides the algebraic claims about the computed formulas.
-/

namespace SensorFilters

open Matrix

/-- A runtime numpy value: a python scalar or a 2-D array (list of rows). -/
inductive NpVal where
  | scalar (q : ℚ)
  | mat (rows : List (List ℚ))
deriving DecidableEq, Repr

/-- Python exceptions raised by the source: ValueError (raised by the
constructor's own check and by numpy shape/broadcast failures) and
numpy.linalg.LinAlgError (raised by np.linalg.inv). -/
inductive PyErr where
  | valueError
  | linAlgError
deriving DecidableEq, Repr

/-- Number of rows, shape[0] of a 2-D array. -/
def rowsOf : NpVal → ℕ
  | .scalar _ => 0
  | .mat rows => rows.length

/-- Number of columns, shape[1] of a 2-D array. -/
def colsOf : NpVal → ℕ
  | .scalar _ => 0
  | .mat rows => (rows.headD []).length

/-- Entry access with a default, used to express the array operations. -/
def getEntry (rows : List (List ℚ)) (i j : ℕ) : ℚ :=
  (rows.getD i []).getD j 0

/-- np.eye n as a list of rows. -/
def eyeV (n : ℕ) : NpVal :=
  .mat ((List.range n).map (fun i => (List.range n).map (fun j => if i = j then (1 : ℚ) else 0)))

/-- np.zeros (r, c) as a list of rows. -/
def zerosV (r c : ℕ) : NpVal :=
  .mat ((List.range r).map (fun _ => (List.range c).map (fun _ => (0 : ℚ))))

/-- Dot product of two equally long lists. -/
def dotL (r c : List ℚ) : ℚ := (List.zipWith (· * ·) r c).sum

/-- Column j of a row-list matrix. -/
def colL (B : List (List ℚ)) (j : ℕ) : List ℚ := B.map (fun r => r.getD j 0)

/-- Row-list matrix product: row i of the result is the list of dot products
of row i of A with the columns of B. -/
def matMulL (A B : List (List ℚ)) : List (List ℚ) :=
  A.map (fun row => (List.range ((B.headD []).length)).map (fun j => dotL row (colL B j)))

/-- np.dot: scalar arguments multiply elementwise, two 2-D arrays matrix
multiply after the inner dimensions are checked to align (numpy raises
ValueError otherwise). -/
def npDot : NpVal → NpVal → Except PyErr NpVal
  | .scalar a, .scalar b => .ok (.scalar (a * b))
  | .scalar a, .mat B => .ok (.mat (B.map (List.map (a * ·))))
  | .mat A, .scalar b => .ok (.mat (A.map (List.map (· * b))))
  | .mat A, .mat B =>
      if (A.headD []).length = B.length then .ok (.mat (matMulL A B))
      else .error .valueError

/-- Broadcast of one dimension pair: equal dimensions, or one of them is 1
(numpy 2-D broadcasting); the broadcast size, none when incompatible. -/
def bcastDim (a b : ℕ) : Option ℕ :=
  if a = b then some a else if a = 1 then some b else if b = 1 then some a else none

/-- Index into a possibly broadcast dimension: a dimension of size 1 is read
at index 0 whatever the target index is. -/
def bIdx (dim i : ℕ) : ℕ := if dim = 1 then 0 else i

/-- Elementwise binary array operation with numpy 2-D broadcasting; scalars
combine with every entry; incompatible shapes raise ValueError. -/
def npZip (f : ℚ → ℚ → ℚ) : NpVal → NpVal → Except PyErr NpVal
  | .scalar a, .scalar b => .ok (.scalar (f a b))
  | .scalar a, .mat B => .ok (.mat (B.map (List.map (fun b => f a b))))
  | .mat A, .scalar b => .ok (.mat (A.map (List.map (fun a => f a b))))
  | .mat A, .mat B =>
      match bcastDim A.length B.length, bcastDim (A.headD []).length (B.headD []).length with
      | some r, some c =>
          .ok (.mat ((List.range r).map (fun i => (List.range c).map (fun j =>
            f (getEntry A (bIdx A.length i) (bIdx (A.headD []).length j))
              (getEntry B (bIdx B.length i) (bIdx (B.headD []).length j))))))
      | _, _ => .error .valueError

/-- Elementwise + with broadcasting. -/
def npAdd : NpVal → NpVal → Except PyErr NpVal := npZip (· + ·)

/-- Elementwise - with broadcasting. -/
def npSub : NpVal → NpVal → Except PyErr NpVal := npZip (· - ·)

/-- Array transpose .T; a scalar is its own transpose. -/
def npT : NpVal → NpVal
  | .scalar a => .scalar a
  | .mat A => .mat ((List.range ((A.headD []).length)).map (fun j => A.map (fun r => r.getD j 0)))

/-- Determinant by Laplace expansion along the first row, with explicit fuel
(the row count) for structural recursion. -/
def detL : ℕ → List (List ℚ) → ℚ
  | 0, _ => 1
  | fuel + 1, A =>
      let r0 := A.headD []
      ((List.range r0.length).map (fun j =>
        (-1 : ℚ) ^ j * r0.getD j 0 * detL fuel ((A.tail).map (fun r => r.eraseIdx j)))).sum

/-- Minor of a row-list matrix: erase row i and column j. -/
def minorL (A : List (List ℚ)) (i j : ℕ) : List (List ℚ) :=
  (A.eraseIdx i).map (fun r => r.eraseIdx j)

/-- np.linalg.inv, modelled by the adjugate formula: LinAlgError on
non-square input and on exactly singular input, otherwise the inverse
matrix (entry (i,j) is the (j,i) cofactor divided by the determinant). -/
def npInv (v : NpVal) : Except PyErr NpVal :=
  match v with
  | .scalar _ => .error .linAlgError
  | .mat A =>
      if (A.headD []).length = A.length then
        let d := detL A.length A
        if d = 0 then .error .linAlgError
        else .ok (.mat ((List.range A.length).map (fun i => (List.range A.length).map (fun j =>
          (-1 : ℚ) ^ (i + j) * detL (A.length - 1) (minorL A j i) / d))))
      else .error .linAlgError

/-- The KalmanFilter instance state: the two dimension fields and the seven
stored arrays, exactly the attributes the constructor assigns. -/
structure KFS where
  n : ℕ
  m : ℕ
  F : NpVal
  H : NpVal
  B : NpVal
  Q : NpVal
  R : NpVal
  P : NpVal
  x : NpVal
deriving DecidableEq, Repr

/-- The constructor, parameters in the source order
(F = None, B = None, H = None, Q = None, R = None, x0 = None, P = None):
raises ValueError when F or H is omitted; otherwise stores
n = F.shape[1], m = H.shape[1], B = 0 when absent, and defaults
Q = eye(n), R = eye(n), P = eye(n), x = zeros((n,1)).  No dimension
consistency check is performed. -/
def init (F B H Q R x0 P : Option NpVal) : Except PyErr KFS :=
  match F, H with
  | some Fm, some Hm =>
      let n := colsOf Fm
      .ok { n := n
            m := colsOf Hm
            F := Fm
            H := Hm
            B := B.getD (.scalar 0)
            Q := Q.getD (eyeV n)
            R := R.getD (eyeV n)
            P := P.getD (eyeV n)
            x := x0.getD (zerosV n 1) }
  | _, _ => .error .valueError

/-- The predict phase.  self.x is assigned the value of F·x + B·u first, then
self.P is assigned F·P·Fᵀ + Q, and the new x is returned.  An exception
in the first line leaves the state unchanged; an exception in the second
line leaves the already assigned x behind (python mutates in place). -/
def predict (st : KFS) (u : NpVal) : Except (KFS × PyErr) (KFS × NpVal) :=
  match (do
      let Fx ← npDot st.F st.x
      let Bu ← npDot st.B u
      npAdd Fx Bu : Except PyErr NpVal) with
  | .error e => .error (st, e)
  | .ok x1 =>
      let st1 := { st with x := x1 }
      match (do
          let FP ← npDot st1.F st1.P
          let FPFt ← npDot FP (npT st1.F)
          npAdd FPFt st1.Q : Except PyErr NpVal) with
      | .error e => .error (st1, e)
      | .ok P1 => .ok ({ st1 with P := P1 }, x1)

/-- The update phase, following the source's evaluation order:
y = z - H·x, S = R + H·(P·Hᵀ), K = (P·Hᵀ)·inv(S), then self.x is assigned
x + K·y, and finally self.P is assigned (I - K·H)·P·(I - K·H)ᵀ + (K·R)·Kᵀ
with I = eye(n).  An exception before the x assignment leaves the state
unchanged; an exception while computing the new P leaves the already
assigned x behind. -/
def update (st : KFS) (z : NpVal) : Except (KFS × PyErr) KFS :=
  match (do
      let Hx ← npDot st.H st.x
      let y ← npSub z Hx
      let PHt ← npDot st.P (npT st.H)
      let HPHt ← npDot st.H PHt
      let S ← npAdd st.R HPHt
      let PHt2 ← npDot st.P (npT st.H)
      let Sinv ← npInv S
      let K ← npDot PHt2 Sinv
      let Ky ← npDot K y
      let x1 ← npAdd st.x Ky
      pure (K, x1) : Except PyErr (NpVal × NpVal)) with
  | .error e => .error (st, e)
  | .ok (K, x1) =>
      let st1 := { st with x := x1 }
      match (do
          let KH ← npDot K st1.H
          let A ← npSub (eyeV st1.n) KH
          let AP ← npDot A st1.P
          let T1 ← npDot AP (npT A)
          let KR ← npDot K st1.R
          let T2 ← npDot KR (npT K)
          npAdd T1 T2 : Except PyErr NpVal) with
      | .error e => .error (st1, e)
      | .ok P1 => .ok { st1 with P := P1 }

/-- One call of the public interface: a predict with its control argument or
an update with its measurement. -/
inductive Op where
  | predictOp (u : NpVal)
  | updateOp (z : NpVal)
deriving DecidableEq, Repr

/-- Apply one call to an instance.  When the call raises, the caller catches
the exception and the instance keeps whatever state the call left behind. -/
def applyOp (st : KFS) : Op → KFS
  | .predictOp u =>
      match predict st u with
      | .ok (st1, _) => st1
      | .error (st1, _) => st1
  | .updateOp z =>
      match update st z with
      | .ok st1 => st1
      | .error (st1, _) => st1

/-- Final state after a sequence of calls on one instance. -/
def runOps (st : KFS) : List Op → KFS
  | [] => st
  | op :: rest => runOps (applyOp st op) rest

/-- State after every step of a sequence of calls on one instance. -/
def trajOps (st : KFS) : List Op → List KFS
  | [] => []
  | op :: rest => applyOp st op :: trajOps (applyOp st op) rest

/-- A world holding two instances; a tagged call is applied to the first
(true) or to the second (false) instance. -/
def applyTagged (s : KFS × KFS) : Bool × Op → KFS × KFS
  | (true, op) => (applyOp s.1 op, s.2)
  | (false, op) => (s.1, applyOp s.2 op)

/-- Run an interleaved sequence of tagged calls on the two-instance world. -/
def runPair (s : KFS × KFS) : List (Bool × Op) → KFS × KFS
  | [] => s
  | t :: rest => runPair (applyTagged s t) rest

/-- The calls of an interleaved sequence addressed to one of the instances. -/
def opsFor (t : Bool) (ops : List (Bool × Op)) : List Op :=
  (ops.filter (fun q => q.1 == t)).map Prod.snd

/-- The value is a 2-D array of shape (r, c). -/
def WfM (v : NpVal) (r c : ℕ) : Prop :=
  match v with
  | .scalar _ => False
  | .mat rows => rows.length = r ∧ ∀ row ∈ rows, row.length = c

instance : (v : NpVal) → (r c : ℕ) → Decidable (WfM v r c)
  | .scalar _, _, _ => isFalse (fun h => h)
  | .mat _, _, _ => inferInstanceAs (Decidable (_ ∧ _))

/-- Dimensionally consistent instance state, with state dimension n and
measurement dimension m: the shapes the documentation prescribes for the
stored matrices, together with the stored field n agreeing with the true
state dimension. -/
def Consistent (st : KFS) (n m : ℕ) : Prop :=
  0 < n ∧ 0 < m ∧ st.n = n ∧ WfM st.F n n ∧ WfM st.H m n ∧ WfM st.Q n n ∧
    WfM st.R m m ∧ WfM st.P n n ∧ WfM st.x n 1

instance (st : KFS) (n m : ℕ) : Decidable (Consistent st n m) := by
  unfold Consistent
  infer_instance

/-- Statically typed instance state over Mathlib matrices: state dimension n,
measurement dimension m, control dimension p.  A filter constructed without
B is represented by B = 0 (the zero contribution the stored scalar 0
produces for a control of matching shape). -/
structure KTyped (n m p : ℕ) where
  F : Matrix (Fin n) (Fin n) ℚ
  H : Matrix (Fin m) (Fin n) ℚ
  B : Matrix (Fin n) (Fin p) ℚ
  Q : Matrix (Fin n) (Fin n) ℚ
  R : Matrix (Fin m) (Fin m) ℚ
  P : Matrix (Fin n) (Fin n) ℚ
  x : Matrix (Fin n) (Fin 1) ℚ

/-- The predict phase over typed matrices: x is replaced by F·x + B·u, then
P by F·P·Fᵀ + Q, and the new x is returned alongside the new state. -/
def predictT (kf : KTyped n m p) (u : Matrix (Fin p) (Fin 1) ℚ) :
    KTyped n m p × Matrix (Fin n) (Fin 1) ℚ :=
  let x1 := kf.F * kf.x + kf.B * u
  let P1 := kf.F * kf.P * kf.Fᵀ + kf.Q
  ({ kf with x := x1, P := P1 }, x1)

/-- Computable matrix inverse by the adjugate formula; on a singular matrix
it is the zero matrix, but updateT only applies it after the determinant
has been checked, mirroring np.linalg.inv. -/
def invT {k : ℕ} (S : Matrix (Fin k) (Fin k) ℚ) : Matrix (Fin k) (Fin k) ℚ :=
  S.det⁻¹ • S.adjugate

/-- The update phase over typed matrices, following the source lines:
y = z - H·x, S = R + H·(P·Hᵀ), failure exactly when S is singular (the
np.linalg.inv LinAlgError), K = (P·Hᵀ)·S⁻¹, x becomes x + K·y and P becomes
(I - K·H)·P·(I - K·H)ᵀ + (K·R)·Kᵀ. -/
def updateT (kf : KTyped n m p) (z : Matrix (Fin m) (Fin 1) ℚ) :
    Except PyErr (KTyped n m p) :=
  let y := z - kf.H * kf.x
  let S := kf.R + kf.H * (kf.P * kf.Hᵀ)
  if S.det = 0 then .error .linAlgError
  else
    let K := kf.P * kf.Hᵀ * invT S
    let x1 := kf.x + K * y
    let P1 := (1 - K * kf.H) * kf.P * (1 - K * kf.H)ᵀ + K * kf.R * Kᵀ
    .ok { kf with x := x1, P := P1 }

/-- Example 3-by-3 state transition matrix. -/
def F33 : NpVal := .mat [[1, 1, 0], [0, 1, 1], [0, 0, 1]]

/-- Example 1-by-3 observation matrix: measurement dimension 1, state
dimension 3. -/
def H13 : NpVal := .mat [[1, 0, 0]]

/-- Example 1-by-4 observation matrix, dimensionally inconsistent with a
3-by-3 state transition matrix. -/
def H14 : NpVal := .mat [[1, 0, 0, 0]]

/-- The instance the constructor builds from F33 and H13 with every optional
argument omitted. -/
def kf33 : KFS :=
  { n := 3, m := 3, F := F33, H := H13, B := .scalar 0,
    Q := eyeV 3, R := eyeV 3, P := eyeV 3, x := zerosV 3 1 }

/-- The instance the constructor builds from F33 and the inconsistent H14
with every optional argument omitted. -/
def kf34 : KFS :=
  { n := 3, m := 4, F := F33, H := H14, B := .scalar 0,
    Q := eyeV 3, R := eyeV 3, P := eyeV 3, x := zerosV 3 1 }

/-- A one-dimensional instance whose caller-supplied R makes the innovation
covariance S = R + H·P·Hᵀ exactly zero. -/
def kfSing : KFS :=
  { n := 1, m := 1, F := .mat [[1]], H := .mat [[1]], B := .scalar 0,
    Q := eyeV 1, R := .mat [[-1]], P := eyeV 1, x := zerosV 1 1 }

/-- A two-dimensional instance with a caller-supplied 1-by-1 R (accepted by
the unvalidated constructor although the measurement dimension is 2). -/
def kfBadR : KFS :=
  { n := 2, m := 2, F := .mat [[1, 0], [0, 1]], H := .mat [[1, 0], [0, 1]],
    B := .scalar 0, Q := eyeV 2, R := .mat [[1/2]], P := eyeV 2, x := zerosV 2 1 }

/-- A two-dimensional instance constructed without B (stored B is the
scalar 0). -/
def kfNoB : KFS :=
  { n := 2, m := 2, F := .mat [[1, 0], [0, 1]], H := .mat [[1, 0]],
    B := .scalar 0, Q := eyeV 2, R := eyeV 2, P := eyeV 2, x := zerosV 2 1 }

/-- A concrete one-dimensional typed instance built from identity model
matrices. -/
def kfT1 : KTyped 1 1 1 :=
  { F := 1, H := 1, B := 1, Q := 1, R := 1, P := 1, x := 0 }

/-- An interleaved two-instance schedule: one predict call on each instance,
the same call sequence for both. -/
def opsW : List (Bool × Op) :=
  [(true, .predictOp (.scalar 0)), (false, .predictOp (.scalar 0))]

theorem ebind_ok {α β : Type} (a : α) (f : α → Except PyErr β) :
    (Except.ok a >>= f) = f a := rfl

theorem ebind_err {α β : Type} (e : PyErr) (f : α → Except PyErr β) :
    ((Except.error e : Except PyErr α) >>= f) = Except.error e := rfl

theorem epure {α : Type} (a : α) : (pure a : Except PyErr α) = Except.ok a := rfl

theorem invT_eq {k : ℕ} (S : Matrix (Fin k) (Fin k) ℚ) : invT S = S⁻¹ := by
  rw [Matrix.inv_def, invT, Ring.inverse_eq_inv]

/-- C2: predict(u) replaces the state by x1 = F·x + B·u, then the covariance
by F·P·Fᵀ + Q, and returns the updated state x1 (the returned vector is the
stored new x). -/
theorem predict_propagation {n m p : ℕ} (kf : KTyped n m p)
    (u : Matrix (Fin p) (Fin 1) ℚ) :
    predictT kf u =
      ({ kf with x := kf.F * kf.x + kf.B * u, P := kf.F * kf.P * kf.Fᵀ + kf.Q },
        kf.F * kf.x + kf.B * u)
    ∧ (predictT kf u).2 = (predictT kf u).1.x :=
  ⟨rfl, rfl⟩

/-- C8: when the current P and Q are symmetric, the covariance after predict,
F·P·Fᵀ + Q, equals its own transpose exactly. -/
theorem predict_preserves_symmetry {n m p : ℕ} (kf : KTyped n m p)
    (u : Matrix (Fin p) (Fin 1) ℚ) (hP : kf.Pᵀ = kf.P) (hQ : kf.Qᵀ = kf.Q) :
    ((predictT kf u).1.P)ᵀ = (predictT kf u).1.P := by
  show (kf.F * kf.P * kf.Fᵀ + kf.Q)ᵀ = kf.F * kf.P * kf.Fᵀ + kf.Q
  rw [Matrix.transpose_add, Matrix.transpose_mul, Matrix.transpose_mul,
    Matrix.transpose_transpose, hP, hQ, Matrix.mul_assoc]

/-- Witness for C8 at a concrete instance with symmetric P and Q. -/
theorem predict_preserves_symmetry_witness :
    ((predictT kfT1 0).1.P)ᵀ = (predictT kfT1 0).1.P :=
  predict_preserves_symmetry kfT1 0 Matrix.transpose_one Matrix.transpose_one

/-- C1: under the hypothesis that S = R + H·P·Hᵀ is invertible, update(z)
computes the innovation y = z − H·x, the gain K = P·Hᵀ·S⁻¹ (a true inverse:
K·S = P·Hᵀ), the new state x + K·y and the Joseph-form covariance
(I − K·H)·P·(I − K·H)ᵀ + K·R·Kᵀ, and stores them as the new state. -/
theorem update_joseph {n m p : ℕ} (kf : KTyped n m p)
    (z : Matrix (Fin m) (Fin 1) ℚ)
    (hS : (kf.R + kf.H * kf.P * kf.Hᵀ).det ≠ 0) :
    updateT kf z =
      Except.ok
        { kf with
          x := kf.x +
            kf.P * kf.Hᵀ * (kf.R + kf.H * kf.P * kf.Hᵀ)⁻¹ * (z - kf.H * kf.x),
          P := (1 - kf.P * kf.Hᵀ * (kf.R + kf.H * kf.P * kf.Hᵀ)⁻¹ * kf.H) * kf.P *
                 (1 - kf.P * kf.Hᵀ * (kf.R + kf.H * kf.P * kf.Hᵀ)⁻¹ * kf.H)ᵀ +
               kf.P * kf.Hᵀ * (kf.R + kf.H * kf.P * kf.Hᵀ)⁻¹ * kf.R *
                 (kf.P * kf.Hᵀ * (kf.R + kf.H * kf.P * kf.Hᵀ)⁻¹)ᵀ }
    ∧ kf.P * kf.Hᵀ * (kf.R + kf.H * kf.P * kf.Hᵀ)⁻¹ * (kf.R + kf.H * kf.P * kf.Hᵀ)
        = kf.P * kf.Hᵀ := by
  have hassoc : kf.R + kf.H * (kf.P * kf.Hᵀ) = kf.R + kf.H * kf.P * kf.Hᵀ := by
    rw [Matrix.mul_assoc]
  constructor
  · show (if (kf.R + kf.H * (kf.P * kf.Hᵀ)).det = 0 then _ else _) = _
    rw [hassoc, if_neg hS, invT_eq]
  · rw [Matrix.mul_assoc (kf.P * kf.Hᵀ),
      Matrix.nonsing_inv_mul _ (isUnit_iff_ne_zero.mpr hS), Matrix.mul_one]

/-- Witness for C1 at a concrete one-dimensional instance, where
S = 1 + 1·1·1 = 2 is invertible. -/
theorem update_joseph_witness :
    updateT kfT1 1 =
      Except.ok
        { kfT1 with
          x := kfT1.x +
            kfT1.P * kfT1.Hᵀ * (kfT1.R + kfT1.H * kfT1.P * kfT1.Hᵀ)⁻¹ *
              (1 - kfT1.H * kfT1.x),
          P := (1 - kfT1.P * kfT1.Hᵀ * (kfT1.R + kfT1.H * kfT1.P * kfT1.Hᵀ)⁻¹ * kfT1.H) *
                 kfT1.P *
                 (1 - kfT1.P * kfT1.Hᵀ * (kfT1.R + kfT1.H * kfT1.P * kfT1.Hᵀ)⁻¹ * kfT1.H)ᵀ +
               kfT1.P * kfT1.Hᵀ * (kfT1.R + kfT1.H * kfT1.P * kfT1.Hᵀ)⁻¹ * kfT1.R *
                 (kfT1.P * kfT1.Hᵀ * (kfT1.R + kfT1.H * kfT1.P * kfT1.Hᵀ)⁻¹)ᵀ }
    ∧ kfT1.P * kfT1.Hᵀ * (kfT1.R + kfT1.H * kfT1.P * kfT1.Hᵀ)⁻¹ *
        (kfT1.R + kfT1.H * kfT1.P * kfT1.Hᵀ)
        = kfT1.P * kfT1.Hᵀ :=
  update_joseph kfT1 1 (by
    have h : kfT1.R + kfT1.H * kfT1.P * kfT1.Hᵀ = !![(2 : ℚ)] := by
      ext i j
      fin_cases i
      fin_cases j
      norm_num [kfT1, Matrix.add_apply, Matrix.one_apply]
    rw [h, Matrix.det_fin_one_of]
    norm_num)

/-- C3 (code defect): with R omitted, the constructor stores R = eye(n)
sized by the state dimension n = 3 (columns of F), not by the measurement
dimension m = 1 (rows of H): the stored default R is 3-by-3 although H has
one row. -/
theorem default_R_sized_by_state_dim :
    init (some F33) none (some H13) none none none none = .ok kf33
    ∧ rowsOf kf33.R = 3 ∧ colsOf kf33.R = 3 ∧ rowsOf kf33.H = 1 :=
  ⟨rfl, rfl, rfl, rfl⟩

/-- C4 (code defect): construction with F of shape 3-by-3 and H of shape
1-by-4 succeeds, storing n = 3 and m = 4 — no dimension consistency check
exists — and omitting F or H raises the untyped builtin ValueError; no
InvalidModelError type exists in the source. -/
theorem construction_skips_dimension_check :
    init (some F33) none (some H14) none none none none = .ok kf34
    ∧ init none none (some H13) none none none none = .error .valueError
    ∧ init (some F33) none none none none none none = .error .valueError :=
  ⟨rfl, rfl, rfl⟩

/-- C10: the constructor stores m = H.shape[1], the column count of H (and
n = F.shape[1]); for an H of shape m-by-n the stored field m equals the
state dimension n. -/
theorem stored_m_is_col_count (Fv Hv : NpVal) (Bo Qo Ro xo Po : Option NpVal)
    (kf : KFS) (h : init (some Fv) Bo (some Hv) Qo Ro xo Po = .ok kf) :
    kf.m = colsOf Hv ∧ kf.n = colsOf Fv := by
  unfold init at h
  cases h
  exact ⟨rfl, rfl⟩

/-- Witness for C10: with H of shape 1-by-3 the stored m is 3, the state
dimension, not the measurement dimension 1. -/
theorem stored_m_is_col_count_witness : kf33.m = 3 ∧ kf33.n = 3 :=
  stored_m_is_col_count F33 H13 none none none none none kf33 rfl

/-- C5 (code defect): at a reachable state where S = R + H·P·Hᵀ is exactly
singular, update raises the generic numpy LinAlgError coming out of
np.linalg.inv; no SingularInnovationCovarianceError type exists in the
source. -/
theorem update_singular_generic_error :
    init (some (.mat [[1]])) none (some (.mat [[1]])) none (some (.mat [[-1]]))
        none none = .ok kfSing
    ∧ update kfSing (.mat [[0]]) = .error (kfSing, .linAlgError) := by
  refine ⟨rfl, ?_⟩
  norm_num [update, npDot, npSub, npAdd, npZip, npT, npInv, detL, minorL,
    matMulL, dotL, colL, getEntry, bcastDim, bIdx, eyeV, zerosV,
    ebind_ok, ebind_err, epure, List.range_succ, kfSing]

theorem runPair_proj (ops : List (Bool × Op)) : ∀ a b : KFS,
    (runPair (a, b) ops).1 = runOps a (opsFor true ops)
    ∧ (runPair (a, b) ops).2 = runOps b (opsFor false ops) := by
  induction ops with
  | nil => exact fun a b => ⟨rfl, rfl⟩
  | cons t rest ih =>
      intro a b
      obtain ⟨tag, op⟩ := t
      cases tag
      · have h := ih a (applyOp b op)
        simpa [runPair, applyTagged, opsFor, runOps, List.filter_cons] using h
      · have h := ih (applyOp a op) b
        simpa [runPair, applyTagged, opsFor, runOps, List.filter_cons] using h

/-- C9: a filter built by the constructor is deterministic and instance
isolated.  Two instances constructed with identical parameters and fed the
identical call sequence have identical states after every step, and when the
two instances are advanced interleaved in one shared world, each one's
result is exactly the result of running its own calls alone — no state
outside the instances links them. -/
theorem kalman_deterministic_isolated (Fo Bo Ho Qo Ro xo Po : Option NpVal)
    (kf : KFS) (hinit : init Fo Bo Ho Qo Ro xo Po = .ok kf)
    (ops : List (Bool × Op)) (hsame : opsFor true ops = opsFor false ops) :
    trajOps kf (opsFor true ops) = trajOps kf (opsFor false ops)
    ∧ (runPair (kf, kf) ops).1 = (runPair (kf, kf) ops).2
    ∧ (runPair (kf, kf) ops).1 = runOps kf (opsFor true ops) := by
  refine ⟨by rw [hsame], ?_, (runPair_proj ops kf kf).1⟩
  rw [(runPair_proj ops kf kf).1, (runPair_proj ops kf kf).2, hsame]

/-- Witness for C9: two identically constructed one-dimensional instances,
one predict call each in an interleaved world. -/
theorem kalman_deterministic_isolated_witness :
    trajOps kfSing (opsFor true opsW) = trajOps kfSing (opsFor false opsW)
    ∧ (runPair (kfSing, kfSing) opsW).1 = (runPair (kfSing, kfSing) opsW).2
    ∧ (runPair (kfSing, kfSing) opsW).1 = runOps kfSing (opsFor true opsW) :=
  kalman_deterministic_isolated (some (.mat [[1]])) none (some (.mat [[1]]))
    none (some (.mat [[-1]])) none none kfSing rfl opsW rfl

theorem bIdx_eq {d i : ℕ} (h : i < d) : bIdx d i = i := by
  unfold bIdx
  split
  · omega
  · rfl

theorem bcastDim_self (a : ℕ) : bcastDim a a = some a := by
  simp [bcastDim]

theorem eyeV_wf (n : ℕ) : WfM (eyeV n) n n := by
  refine ⟨by simp, ?_⟩
  intro row hrow
  obtain ⟨i, _, rfl⟩ := List.mem_map.mp hrow
  simp

theorem zerosV_wf (r c : ℕ) : WfM (zerosV r c) r c := by
  refine ⟨by simp, ?_⟩
  intro row hrow
  obtain ⟨i, _, rfl⟩ := List.mem_map.mp hrow
  simp

theorem range_getEntry_eq {rows : List (List ℚ)} {r c : ℕ} (hl : rows.length = r)
    (hc : ∀ row ∈ rows, row.length = c) :
    (List.range r).map (fun i => (List.range c).map (fun j => getEntry rows i j))
      = rows := by
  apply List.ext_getElem
  · simp [hl]
  · intro i h1 h2
    simp only [List.getElem_map, List.getElem_range]
    apply List.ext_getElem
    · simp [hc _ (List.getElem_mem _)]
    · intro j hj1 hj2
      simp only [List.getElem_map, List.getElem_range]
      unfold getEntry
      rw [List.getD_eq_getElem rows [] h2, List.getD_eq_getElem _ 0 hj2]

theorem npDot_wf {A B : NpVal} {a b c : ℕ} (hA : WfM A a b) (hB : WfM B b c)
    (ha : 0 < a) (hb : 0 < b) :
    ∃ rows, npDot A B = .ok (.mat rows) ∧ WfM (.mat rows) a c := by
  cases A with
  | scalar q => exact absurd hA (fun h => h)
  | mat Ar =>
    cases B with
    | scalar q => exact absurd hB (fun h => h)
    | mat Br =>
      obtain ⟨hAl, hAc⟩ := hA
      obtain ⟨hBl, hBc⟩ := hB
      cases Ar with
      | nil => simp at hAl; omega
      | cons r0 Arest =>
        cases Br with
        | nil => simp at hBl; omega
        | cons s0 Brest =>
          have hr0 : r0.length = b := hAc r0 (by simp)
          have hs0 : s0.length = c := hBc s0 (by simp)
          refine ⟨matMulL (r0 :: Arest) (s0 :: Brest), ?_, ?_, ?_⟩
          · simp [npDot, hr0, hBl]
          · simpa [matMulL] using hAl
          · intro row hrow
            simp only [matMulL] at hrow
            obtain ⟨rw0, _, rfl⟩ := List.mem_map.mp hrow
            simp [hs0]

theorem npZip_wf (f : ℚ → ℚ → ℚ) {A B : NpVal} {r c : ℕ} (hA : WfM A r c)
    (hB : WfM B r c) (hr : 0 < r) :
    ∃ rows, npZip f A B = .ok (.mat rows) ∧ WfM (.mat rows) r c := by
  cases A with
  | scalar q => exact absurd hA (fun h => h)
  | mat Ar =>
    cases B with
    | scalar q => exact absurd hB (fun h => h)
    | mat Br =>
      obtain ⟨hAl, hAc⟩ := hA
      obtain ⟨hBl, hBc⟩ := hB
      have hAhead : (Ar.headD []).length = c := by
        cases Ar with
        | nil => simp at hAl; omega
        | cons r0 rest => exact hAc r0 (by simp)
      have hBhead : (Br.headD []).length = c := by
        cases Br with
        | nil => simp at hBl; omega
        | cons s0 rest => exact hBc s0 (by simp)
      refine ⟨(List.range r).map (fun i => (List.range c).map (fun j =>
          f (getEntry Ar (bIdx r i) (bIdx c j)) (getEntry Br (bIdx r i) (bIdx c j)))),
          ?_, ?_, ?_⟩
      · simp only [npZip, hAl, hBl, hAhead, hBhead, bcastDim_self]
      · simp
      · intro row hrow
        obtain ⟨i, _, rfl⟩ := List.mem_map.mp hrow
        simp

theorem npT_wf {A : NpVal} {r c : ℕ} (hA : WfM A r c) (hr : 0 < r) :
    WfM (npT A) c r := by
  cases A with
  | scalar q => exact absurd hA (fun h => h)
  | mat Ar =>
    obtain ⟨hAl, hAc⟩ := hA
    have hAhead : (Ar.headD []).length = c := by
      cases Ar with
      | nil => simp at hAl; omega
      | cons r0 rest => exact hAc r0 (by simp)
    refine ⟨?_, ?_⟩
    · simp only [npT, List.length_map, List.length_range]
      exact hAhead
    · intro row hrow
      obtain ⟨j, _, rfl⟩ := List.mem_map.mp hrow
      simp [hAl]

theorem npInv_wf {S : NpVal} {k : ℕ} (hS : WfM S k k) :
    npInv S = .error .linAlgError
    ∨ ∃ rows, npInv S = .ok (.mat rows) ∧ WfM (.mat rows) k k := by
  cases S with
  | scalar q => exact absurd hS (fun h => h)
  | mat Ar =>
    obtain ⟨hAl, hAc⟩ := hS
    have hAhead : (Ar.headD []).length = Ar.length := by
      cases Ar with
      | nil => simp
      | cons r0 rest => rw [hAl]; exact hAc r0 (by simp)
    by_cases hz : detL Ar.length Ar = 0
    · left
      simp [npInv, hAhead, hz]
    · right
      refine ⟨(List.range Ar.length).map (fun i => (List.range Ar.length).map (fun j =>
          (-1 : ℚ) ^ (i + j) * detL (Ar.length - 1) (minorL Ar j i) / detL Ar.length Ar)),
          ?_, ?_, ?_⟩
      · simp only [npInv, hAhead, eq_self_iff_true, if_true]
        rw [if_neg hz]
      · simp [hAl]
      · intro row hrow
        obtain ⟨i, _, rfl⟩ := List.mem_map.mp hrow
        simp [hAl]

theorem npAdd_scalar_zero (rows : List (List ℚ)) :
    npAdd (.mat rows) (.scalar 0) = .ok (.mat rows) := by
  simp [npAdd, npZip]

theorem npDot_zero_scalar (s : ℚ) : npDot (.scalar 0) (.scalar s) = .ok (.scalar 0) := by
  simp [npDot]

theorem npDot_zero_mat (rows : List (List ℚ)) :
    npDot (.scalar 0) (.mat rows)
      = .ok (.mat (rows.map (fun row => row.map (fun _ => (0 : ℚ))))) := by
  simp [npDot]

theorem getD_zero_col (row : List ℚ) (j : ℕ) :
    (row.map (fun _ => (0 : ℚ))).getD j 0 = 0 := by
  rw [List.getD_eq_getElem?_getD, List.getElem?_map]
  cases row[j]? <;> rfl

theorem getD_map_zero_rows (rows : List (List ℚ)) (i : ℕ) :
    (rows.map (fun row => row.map (fun _ => (0 : ℚ)))).getD i []
      = (rows.getD i []).map (fun _ => (0 : ℚ)) := by
  rw [List.getD_eq_getElem?_getD, List.getElem?_map, List.getD_eq_getElem?_getD]
  cases rows[i]? <;> rfl

theorem getEntry_zero_map (rows : List (List ℚ)) (i j : ℕ) :
    getEntry (rows.map (fun row => row.map (fun _ => (0 : ℚ)))) i j = 0 := by
  unfold getEntry
  rw [getD_map_zero_rows]
  exact getD_zero_col _ _

theorem npAdd_zeros_right {rows Z : List (List ℚ)} {r c : ℕ} (hr : 0 < r)
    (hAl : rows.length = r) (hAc : ∀ row ∈ rows, row.length = c)
    (hZl : Z.length = r) (hZc : ∀ row ∈ Z, row.length = c)
    (hZ0 : ∀ i j, getEntry Z i j = 0) :
    npAdd (.mat rows) (.mat Z) = .ok (.mat rows) := by
  have hAhead : (rows.headD []).length = c := by
    cases rows with
    | nil => simp at hAl; omega
    | cons r0 rest => exact hAc r0 (by simp)
  have hZhead : (Z.headD []).length = c := by
    cases Z with
    | nil => simp at hZl; omega
    | cons s0 rest => exact hZc s0 (by simp)
  simp only [npAdd, npZip, hAl, hZl, hAhead, hZhead, bcastDim_self]
  have h2 : ∀ i ∈ List.range r, (List.range c).map (fun j =>
      getEntry rows (bIdx r i) (bIdx c j) + getEntry Z (bIdx r i) (bIdx c j))
      = (List.range c).map (fun j => getEntry rows i j) := by
    intro i hi
    apply List.map_congr_left
    intro j hj
    rw [bIdx_eq (List.mem_range.mp hi), bIdx_eq (List.mem_range.mp hj), hZ0, add_zero]
  rw [List.map_congr_left h2, range_getEntry_eq hAl hAc]

/-- Counterexample to C7 as stated: on a filter constructed without B, a
predict call whose control vector length (3) differs from the state
dimension (2) raises a broadcast ValueError, while predict with the default
argument succeeds; so the control argument is not ignored for every control
vector. -/
theorem predict_no_B_mismatched_control_cex :
    init (some (.mat [[1, 0], [0, 1]])) none (some (.mat [[1, 0]])) none none
        none none = .ok kfNoB
    ∧ predict kfNoB (.mat [[1], [1], [1]]) = .error (kfNoB, .valueError)
    ∧ predict kfNoB (.scalar 0) =
        .ok ({ kfNoB with x := .mat [[0], [0]], P := .mat [[2, 0], [0, 2]] },
          .mat [[0], [0]]) := by
  refine ⟨rfl, ?_, ?_⟩
  · norm_num [predict, npDot, npAdd, npZip, npT, matMulL, dotL, colL, getEntry,
      bcastDim, bIdx, eyeV, zerosV, ebind_ok, ebind_err, epure,
      List.range_succ, kfNoB]
  · norm_num [predict, npDot, npAdd, npZip, npT, matMulL, dotL, colL, getEntry,
      bcastDim, bIdx, eyeV, zerosV, ebind_ok, ebind_err, epure,
      List.range_succ, kfNoB]

/-- C7 amended: on a filter constructed without B (stored B is the scalar 0)
whose F, x, P, Q have consistent shapes for state dimension n, the control
argument is ignored for every control u that is a scalar or an n-by-1
array: predict(u) returns exactly what predict() with the default argument
returns, and does not fail.  (The counterexample shows the original
universally quantified claim is false: a 3-by-1 control on a 2-dimensional
filter raises a broadcast ValueError.) -/
theorem predict_ignores_matching_control (st : KFS) (n : ℕ) (hn : 0 < n)
    (hF : WfM st.F n n) (hx : WfM st.x n 1) (hP : WfM st.P n n) (hQ : WfM st.Q n n)
    (hB : st.B = .scalar 0) (u : NpVal)
    (hu : (∃ s, u = .scalar s) ∨ WfM u n 1) :
    predict st u = predict st (.scalar 0)
    ∧ ∃ st1 xr, predict st u = .ok (st1, xr) := by
  obtain ⟨FxR, hFx, hFxwf⟩ := npDot_wf hF hx hn hn
  obtain ⟨hFxl, hFxc⟩ := hFxwf
  have hxu : (npDot st.B u >>= fun Bu => npAdd (.mat FxR) Bu) = .ok (.mat FxR) := by
    rcases hu with ⟨s, rfl⟩ | huw
    · simp only [hB, npDot_zero_scalar, ebind_ok, npAdd_scalar_zero]
    · cases u with
      | scalar q => exact absurd huw (fun h => h)
      | mat uR =>
        obtain ⟨hul, huc⟩ := huw
        simp only [hB, npDot_zero_mat, ebind_ok]
        refine npAdd_zeros_right hn hFxl hFxc (by simpa using hul) ?_
          (fun i j => getEntry_zero_map uR i j)
        intro row hrow
        obtain ⟨row0, hm, rfl⟩ := List.mem_map.mp hrow
        simpa using huc row0 hm
  have hx0 : (npDot st.B (.scalar 0) >>= fun Bu => npAdd (.mat FxR) Bu)
      = .ok (.mat FxR) := by
    simp only [hB, npDot_zero_scalar, ebind_ok, npAdd_scalar_zero]
  obtain ⟨FPR, hFP, hFPwf⟩ := npDot_wf hF hP hn hn
  have hFT := npT_wf hF hn
  obtain ⟨FPFR, hFPF, hFPFwf⟩ := npDot_wf hFPwf hFT hn hn
  obtain ⟨P1R, hP1, hP1wf⟩ := npZip_wf (· + ·) hFPFwf hQ hn
  have heval : ∀ v : NpVal,
      (npDot st.B v >>= fun Bu => npAdd (.mat FxR) Bu) = .ok (.mat FxR) →
      predict st v = .ok ({ st with x := .mat FxR, P := .mat P1R }, .mat FxR) := by
    intro v hv
    simp only [npAdd] at hv
    simp only [predict, hFx, ebind_ok, hv, hFP, hFPF, npAdd, hP1]
  refine ⟨?_, _, _, heval u hxu⟩
  rw [heval u hxu, heval (.scalar 0) hx0]

/-- Witness for the amended C7 at a concrete two-dimensional filter without
B and a control of matching length 2. -/
theorem predict_ignores_matching_control_witness :
    predict kfNoB (.mat [[5], [7]]) = predict kfNoB (.scalar 0)
    ∧ ∃ st1 xr, predict kfNoB (.mat [[5], [7]]) = .ok (st1, xr) :=
  predict_ignores_matching_control kfNoB 2 (by decide) (by decide) (by decide)
    (by decide) (by decide) rfl (.mat [[5], [7]]) (Or.inr (by decide))

/-- Counterexample to C6 as stated: the unvalidated constructor accepts a
1-by-1 R on a filter with measurement dimension 2; update on the resulting
state assigns the new x (broadcasting R in S), and only then fails with a
shape ValueError at the K·R product of the covariance line — a failing call
that leaves x mutated. -/
theorem update_partial_mutation_cex :
    init (some (.mat [[1, 0], [0, 1]])) none (some (.mat [[1, 0], [0, 1]])) none
        (some (.mat [[1/2]])) none none = .ok kfBadR
    ∧ update kfBadR (.mat [[1], [1]]) =
        .error ({ kfBadR with x := .mat [[1/2], [1/2]] }, .valueError)
    ∧ ({ kfBadR with x := .mat [[1/2], [1/2]] } : KFS).x ≠ kfBadR.x := by
  refine ⟨rfl, ?_, ?_⟩
  · norm_num [update, npDot, npSub, npAdd, npZip, npT, npInv, detL, minorL,
      matMulL, dotL, colL, getEntry, bcastDim, bIdx, eyeV, zerosV,
      List.eraseIdx, ebind_ok, ebind_err, epure, List.range_succ, kfBadR]
  · norm_num [kfBadR, zerosV, List.range_succ]

/-- C6 amended: on every dimensionally consistent filter state (the shapes
the documentation prescribes — the counterexample shows the constructor
also accepts inconsistent shapes, on which update can fail after mutating
x), predict and update are atomic with respect to failure: every failing
call leaves x and P exactly as they were before the call. -/
theorem predict_update_atomic (st : KFS) (n m : ℕ) (hc : Consistent st n m)
    (u z : NpVal) (stP stU : KFS) (e eU : PyErr) :
    (predict st u = .error (stP, e) → stP.x = st.x ∧ stP.P = st.P)
    ∧ (update st z = .error (stU, eU) → stU.x = st.x ∧ stU.P = st.P) := by
  obtain ⟨hn, hm, hsn, hF, hH, hQ, hR, hP, hx⟩ := hc
  constructor
  · intro herr
    simp only [predict, npAdd] at herr
    obtain ⟨FPR, hFP, hFPwf⟩ := npDot_wf hF hP hn hn
    have hFT := npT_wf hF hn
    obtain ⟨FPFR, hFPF, hFPFwf⟩ := npDot_wf hFPwf hFT hn hn
    obtain ⟨P1R, hP1, _⟩ := npZip_wf (· + ·) hFPFwf hQ hn
    cases hxline : (npDot st.F st.x >>= fun Fx =>
        npDot st.B u >>= fun Bu => npZip (· + ·) Fx Bu) with
    | error e0 =>
        rw [hxline] at herr
        simp only [Except.error.injEq, Prod.mk.injEq] at herr
        rw [← herr.1]
        exact ⟨rfl, rfl⟩
    | ok x1 =>
        rw [hxline] at herr
        simp only [hFP, ebind_ok, hFPF, hP1] at herr
        exact Except.noConfusion herr
  · intro herr
    simp only [update, npAdd, npSub, epure] at herr
    obtain ⟨HxR, hHx, hHxwf⟩ := npDot_wf hH hx hm hn
    have hHT := npT_wf hH hm
    obtain ⟨PHtR, hPHt, hPHtwf⟩ := npDot_wf hP hHT hn hn
    obtain ⟨HPHtR, hHPHt, hHPHtwf⟩ := npDot_wf hH hPHtwf hm hn
    obtain ⟨SR, hS, hSwf⟩ := npZip_wf (· + ·) hR hHPHtwf hm
    simp only [hHx, ebind_ok] at herr
    cases hy : npZip (· - ·) z (.mat HxR) with
    | error e0 =>
        rw [hy] at herr
        simp only [ebind_err, Except.error.injEq, Prod.mk.injEq] at herr
        rw [← herr.1]
        exact ⟨rfl, rfl⟩
    | ok yv =>
        rw [hy] at herr
        simp only [ebind_ok, hPHt, hHPHt, hS] at herr
        rcases npInv_wf hSwf with hInv | ⟨SiR, hInv, hSiwf⟩
        · rw [hInv] at herr
          simp only [ebind_err, Except.error.injEq, Prod.mk.injEq] at herr
          rw [← herr.1]
          exact ⟨rfl, rfl⟩
        · rw [hInv] at herr
          obtain ⟨KR, hK, hKwf⟩ := npDot_wf hPHtwf hSiwf hn hm
          simp only [ebind_ok, hK] at herr
          cases hKy : npDot (.mat KR) yv with
          | error e0 =>
              rw [hKy] at herr
              simp only [ebind_err, Except.error.injEq, Prod.mk.injEq] at herr
              rw [← herr.1]
              exact ⟨rfl, rfl⟩
          | ok Kyv =>
              rw [hKy] at herr
              simp only [ebind_ok] at herr
              cases hxl : npZip (· + ·) st.x Kyv with
              | error e0 =>
                  rw [hxl] at herr
                  simp only [ebind_err, Except.error.injEq, Prod.mk.injEq] at herr
                  rw [← herr.1]
                  exact ⟨rfl, rfl⟩
              | ok x1 =>
                  rw [hxl] at herr
                  simp only [ebind_ok, hsn] at herr
                  obtain ⟨KHR, hKH, hKHwf⟩ := npDot_wf hKwf hH hn hm
                  obtain ⟨AR, hA, hAwf⟩ := npZip_wf (· - ·) (eyeV_wf n) hKHwf hn
                  obtain ⟨APR, hAP, hAPwf⟩ := npDot_wf hAwf hP hn hn
                  have hAT := npT_wf hAwf hn
                  obtain ⟨T1R, hT1, hT1wf⟩ := npDot_wf hAPwf hAT hn hn
                  obtain ⟨KRR, hKR, hKRwf⟩ := npDot_wf hKwf hR hn hm
                  have hKT := npT_wf hKwf hn
                  obtain ⟨T2R, hT2, hT2wf⟩ := npDot_wf hKRwf hKT hn hm
                  obtain ⟨P2R, hP2, _⟩ := npZip_wf (· + ·) hT1wf hT2wf hn
                  simp only [hKH, ebind_ok, hA, hAP, hT1, hKR, hT2, hP2] at herr
                  exact Except.noConfusion herr

/-- Witness for the amended C6 at a concrete consistent one-dimensional
state (on which update indeed fails, atomically, with a singular S). -/
theorem predict_update_atomic_witness :
    (predict kfSing (.scalar 0) = .error (kfSing, .linAlgError) →
        kfSing.x = kfSing.x ∧ kfSing.P = kfSing.P)
    ∧ (update kfSing (.mat [[0]]) = .error (kfSing, .linAlgError) →
        kfSing.x = kfSing.x ∧ kfSing.P = kfSing.P) :=
  predict_update_atomic kfSing 1 1 (by decide) (.scalar 0) (.mat [[0]])
    kfSing kfSing .linAlgError .linAlgError

end SensorFilters
